import Mathlib

/-!
Verification of the HexStickyNote streaming inference dispatch engine.

This file gives a shallow embedding of the core of the repository:

* the local autoregressive generation engine of
  `src-tauri/src/local_inference.rs` (`run_local_inference`): the
  repetition-penalty greedy sampler, the decode loop with end-of-generation,
  stop-sequence and token-budget stop conditions, and the terminal event;
* the OpenAI-style streaming adapter of `src-tauri/src/ai_manager.rs`
  (`AiManager::stream_openai`): `data: `-line splitting, the `[DONE]` marker,
  text deltas, incremental tool-call assembly and the flush-and-refresh path;
* the provider routing of `AiManager::invoke_stream` and the `AiError`
  taxonomy;
* the tool name dispatch of `src-tauri/src/ai_tools.rs` (`execute_tool`).

External collaborators (the llama.cpp model, serde_json, the HTTP client, the
note storage) are modelled as explicit oracle parameters, exactly at the
interfaces the code uses them.  Machine floats (`f32` logits) are modelled as
exact rationals; the sampler's arithmetic (multiply / divide by 1.2, compare,
sort) is preserved literally.  Side effects (`app.emit`, the call to
`ai_tools::execute_tool`) are modelled as an explicit event trace.
-/

/-! Shared event types (`ai_manager.rs`). -/

/-- Mirror of `AiStreamChunk \x7b chunk: String, done: bool \x7d`, the payload of
every `"ai-stream-chunk"` event delivered to the Output Sink. -/
structure AiStreamChunk where
  chunk : String
  done : Bool
deriving DecidableEq, Repr

/-- One observable effect of the engine, in emission order: an
`"ai-stream-chunk"` event, a `"refresh-required"` event, or a call to
`ai_tools::execute_tool` with the assembled name and argument buffers. -/
inductive Emitted where
  | streamChunk (c : AiStreamChunk)
  | refreshRequired
  | toolExec (name : String) (arguments : String)
deriving DecidableEq, Repr

/-- Number of terminal (`done = true`) chunks in a trace of chunk events. -/
def countDoneChunks (evs : List AiStreamChunk) : Nat :=
  (evs.filter fun c => c.done).length

/-- Number of non-terminal (`done = false`) fragment chunks in a trace. -/
def countFragmentChunks (evs : List AiStreamChunk) : Nat :=
  (evs.filter fun c => !c.done).length

/-- Number of terminal chunk events in a mixed `Emitted` trace. -/
def countDoneEvents (evs : List Emitted) : Nat :=
  (evs.filter fun e =>
    match e with
    | .streamChunk c => c.done
    | _ => false).length

/-! The sampler (`local_inference.rs`, lines 183-224).  A sampling candidate
is one vocabulary entry with a model-assigned score.  The `f32` logit is
modelled as an exact rational; the penalty constant `1.2f32` becomes
`6 / 5`. -/

/-- One entry of the candidate array (`LlamaTokenData`): token id and logit. -/
structure LlamaTokenData where
  id : Int
  logit : ℚ
deriving DecidableEq, Repr

/-- The repetition penalty constant, `let penalty = 1.2f32`. -/
def penalty : ℚ := 6 / 5

/-- The recent-token window size, `let last_n = 64`. -/
def last_n : Nat := 64

/-- Mirror of `all_tokens[all_tokens.len().saturating_sub(last_n)..]`: the last
64 generated-or-prompt token ids (Nat subtraction is saturating). -/
def recentTokens (allTokens : List Int) : List Int :=
  allTokens.drop (allTokens.length - last_n)

/-- Mirror of the penalty loop body: if the candidate's id occurs in the
recent window then a non-positive logit (`logit <= 0.0`) is multiplied by the
penalty and a positive logit is divided by it; other candidates are left
unchanged. -/
def applyRepetitionPenalty (recent : List Int) (cand : LlamaTokenData) :
    LlamaTokenData :=
  if recent.contains cand.id then
    if cand.logit ≤ 0 then { cand with logit := cand.logit * penalty }
    else { cand with logit := cand.logit / penalty }
  else cand

/-- The sort-key relation of the sampler: `a` may come before `b` when
`b.logit ≤ a.logit` (logit descending). -/
def logitGE (a b : LlamaTokenData) : Prop := b.logit ≤ a.logit

instance : DecidableRel logitGE := fun _ _ => inferInstanceAs (Decidable (_ ≤ _))

instance : IsTotal LlamaTokenData logitGE :=
  ⟨fun a b => le_total b.logit a.logit⟩

instance : IsTrans LlamaTokenData logitGE :=
  ⟨fun _ _ _ h1 h2 => le_trans h2 h1⟩

/-- Mirror of
`candidates_array.data.sort_by(|a, b| b.logit().partial_cmp(&a.logit()) ...)`:
a stable sort by logit descending.  Rust's `sort_by` is a stable sort; a
stable sort for a total transitive comparator has a unique result, so stable
insertion sort agrees with it on every input (rationals have no NaN, so the
`unwrap_or(Equal)` branch of the source comparator is dead). -/
def sortByLogitDesc (cands : List LlamaTokenData) : List LlamaTokenData :=
  cands.insertionSort logitGE

/-- One sampling step (`local_inference.rs` lines 183-224): penalize every
candidate whose id occurs in the last 64 tokens, sort by penalized logit
descending, and greedily take the first candidate's id; `none` models the
`break` on an empty candidate array. -/
def sampleGreedy (allTokens : List Int) (cands : List LlamaTokenData) :
    Option Int :=
  let recent := recentTokens allTokens
  let penalized := cands.map (applyRepetitionPenalty recent)
  (sortByLogitDesc penalized).head?.map LlamaTokenData.id

/-! The decode loop (`local_inference.rs`, lines 171-335). -/

/-- The external llama.cpp model, at exactly the interface the decode loop
uses it: `ctxCandidates` gives the candidate array produced by the context
after the listed tokens have been decoded into it (`ctx.candidates()`),
`isEogToken` is `model.is_eog_token`, and `tokenToStr` is
`model.token_to_str` with `none` for its `Err` branch. -/
structure LocalModelOracle where
  ctxCandidates : List Int → List LlamaTokenData
  isEogToken : Int → Bool
  tokenToStr : Int → Option String

/-- Why the decode loop stopped. -/
inductive StopReason where
  | noCandidates
  | eogToken
  | stopSequence
  | maxTokensReached
deriving DecidableEq, Repr

/-- Result of the decode loop: the emitted text fragments in order, the full
token sequence (`all_tokens`), the accumulated decoded text
(`full_response`) and the stop reason. -/
structure GenOutcome where
  fragments : List String
  allTokens : List Int
  fullResponse : String
  reason : StopReason
deriving DecidableEq, Repr

/-- The stop-sequence table of `local_inference.rs` lines 243-253. -/
def stop_sequences : List String :=
  ["Kysymys:", "Käyttäjä:", "Expected Output:", "User Request:",
   "Instruction:", "Vastaus:", "<|eot_id|>", "<|end_of_text|>", "\n\n\n"]

/-- Substring test on character lists: `needle` occurs contiguously in
`hay`. -/
def containsSub (needle : List Char) : List Char → Bool
  | [] => needle.isEmpty
  | c :: cs => needle.isPrefixOf (c :: cs) || containsSub needle cs

/-- Mirror of Rust's `str::contains(&str)`: substring containment. -/
def strContains (hay needle : String) : Bool :=
  containsSub needle.toList hay.toList

/-- Mirror of the stop-sequence scan: does `full_response` contain any entry
of the stop-sequence table? -/
def containsStopSequence (fullResponse : String) : Bool :=
  stop_sequences.any fun seq => strContains fullResponse seq

/-- The decode loop of `run_local_inference` (lines 181-318), one recursive
call per iteration of `while n_cur < MAX_TOKENS`.  Since `n_cur` and
`all_tokens.len()` start equal (both at the prompt length) and are both
incremented exactly once per iteration, the remaining iteration count
`MAX_TOKENS - n_cur` is carried explicitly as `fuel`.  Each iteration:
sample (break on empty candidates), push the token, break on an
end-of-generation token, decode the token to text (an undecodable token is
skipped but the loop continues), append to `full_response`, break when the
accumulated text contains a stop sequence, and otherwise emit the text as a
fragment unless it is empty or an `<unk>` placeholder. -/
def genLoop (M : LocalModelOracle) :
    Nat → List Int → String → GenOutcome
  | 0, allTokens, fullResponse =>
      { fragments := [], allTokens := allTokens, fullResponse := fullResponse,
        reason := .maxTokensReached }
  | fuel + 1, allTokens, fullResponse =>
      match sampleGreedy allTokens (M.ctxCandidates allTokens) with
      | none =>
          { fragments := [], allTokens := allTokens,
            fullResponse := fullResponse, reason := .noCandidates }
      | some token =>
          let allTokens1 := allTokens ++ [token]
          if M.isEogToken token then
            { fragments := [], allTokens := allTokens1,
              fullResponse := fullResponse, reason := .eogToken }
          else
            match M.tokenToStr token with
            | some text =>
                let fullResponse1 := fullResponse ++ text
                if containsStopSequence fullResponse1 then
                  { fragments := [], allTokens := allTokens1,
                    fullResponse := fullResponse1, reason := .stopSequence }
                else
                  let rest := genLoop M fuel allTokens1 fullResponse1
                  if text = "" then rest
                  else if text = "<unk>" ∨ text = " <unk>" then rest
                  else { rest with fragments := text :: rest.fragments }
            | none => genLoop M fuel allTokens1 fullResponse

/-- The generated-token cap of the source, `const MAX_TOKENS: usize = 512`. -/
def MAX_TOKENS : Nat := 512

/-- The generation phase of `run_local_inference` as seen by the Output Sink:
run the decode loop from the tokenized prompt (`n_cur` starts at
`tokens.len()`, so the loop runs for at most `maxTokens - promptTokens.length`
iterations) and then emit the single terminal `\x7b chunk: "", done: true \x7d`
event of lines 321-328.  The model-loading and tokenization stages upstream of
the loop are external to this model; the source fixes `maxTokens` to
`MAX_TOKENS = 512`, kept as a parameter here. -/
def run_local_inference (M : LocalModelOracle) (promptTokens : List Int)
    (maxTokens : Nat) : List AiStreamChunk :=
  let out := genLoop M (maxTokens - promptTokens.length) promptTokens ""
  out.fragments.map (fun text => { chunk := text, done := false })
    ++ [{ chunk := "", done := true }]

/-! JSON values and the OpenAI-style adapter (`ai_manager.rs`). -/

/-- A parsed JSON value, the shape `serde_json::Value` exposes to the
adapter.  Parsing itself (`serde_json::from_str`) is an external oracle. -/
inductive JsonVal where
  | null
  | bool (b : Bool)
  | num (q : ℚ)
  | str (s : String)
  | arr (elems : List JsonVal)
  | obj (fields : List (String × JsonVal))

/-- Mirror of `serde_json::Value`'s `[key]` indexing: a missing key or a
non-object yields `Null`. -/
def JsonVal.getKey : JsonVal → String → JsonVal
  | .obj fields, key =>
      match fields.lookup key with
      | some v => v
      | none => .null
  | _, _ => .null

/-- Mirror of `serde_json::Value`'s `[index]` indexing on arrays. -/
def JsonVal.getIdx : JsonVal → Nat → JsonVal
  | .arr elems, i => (elems.get? i).getD .null
  | _, _ => .null

/-- Mirror of `Value::as_str`. -/
def JsonVal.asStr : JsonVal → Option String
  | .str s => some s
  | _ => none

/-- Mirror of `Value::as_array`. -/
def JsonVal.asArr : JsonVal → Option (List JsonVal)
  | .arr elems => some elems
  | _ => none

/-- Mirror of `Value::as_object` (field list, unique keys). -/
def JsonVal.asObj : JsonVal → Option (List (String × JsonVal))
  | .obj fields => some fields
  | _ => none

/-- Mirror of `Map::get` on a JSON object's fields. -/
def objGet (fields : List (String × JsonVal)) (key : String) : Option JsonVal :=
  fields.lookup key

/-- The single in-progress tool invocation (`struct PendingToolCall`). -/
structure PendingToolCall where
  id : String
  name : String
  arguments : String
deriving DecidableEq, Repr

/-- Mirror of `ai_tools::execute_tool` (`ai_tools.rs` lines 120-165) at the
granularity the adapter depends on: the four declared tool names dispatch to
their branch (argument parsing via serde and the card-storage side effects
are the external collaborator `knownTool`), and any other name returns
`Err("Unknown tool: \x7bname\x7d")`. -/
def execute_tool (knownTool : String → String → Except String String)
    (name : String) (arguments : String) : Except String String :=
  if name = "create_note" ∨ name = "update_note" ∨ name = "delete_note" ∨
      name = "list_notes" then
    knownTool name arguments
  else
    .error ("Unknown tool: " ++ name)

/-- Mirror of `line.strip_prefix("data: ")`: if the line starts with the
six-character tag `data: `, the remainder after it (all input lines here are
well-formed unicode, so dropping six characters is dropping the tag). -/
def stripDataTag (line : String) : Option String :=
  if "data: ".toList.isPrefixOf line.toList then
    some (String.mk (line.toList.drop 6))
  else none

/-- Does this line carry the literal `[DONE]` payload? -/
def isDoneLine (line : String) : Bool :=
  if stripDataTag line = some "[DONE]" then true else false

/-- Mirror of the `[DONE]` / `finish_reason == "tool_calls"` flush (lines
237-241 and 293-299): if a tool call is pending, call
`ai_tools::execute_tool` on its buffers — its `Result` is discarded
(`let _ = ...`) — and emit `"refresh-required"`; the pending slot is
cleared (`pending_tool.take()`). -/
def flushPendingTool (execTool : String → String → Except String String) :
    Option PendingToolCall → List Emitted × Option PendingToolCall
  | some tool =>
      let _ := execTool tool.name tool.arguments
      ([.toolExec tool.name tool.arguments, .refreshRequired], none)
  | none => ([], none)

/-- Mirror of the body of the inner `for call in tool_calls` loop (lines
264-287): a fragment carrying an `id` begins a fresh `PendingToolCall` with
empty buffers, replacing any pending one; then, if the fragment has a
`function` object and a call is pending, its `name` / `arguments` string
deltas are appended onto the pending buffers. -/
def processToolCallFragment (pending : Option PendingToolCall)
    (call : JsonVal) : Option PendingToolCall :=
  let pending1 : Option PendingToolCall :=
    match (call.getKey "id").asStr with
    | some id => some { id := id, name := "", arguments := "" }
    | none => pending
  match (call.getKey "function").asObj, pending1 with
  | some function, some pt =>
      let pt1 :=
        match (objGet function "name").bind JsonVal.asStr with
        | some name => { pt with name := pt.name ++ name }
        | none => pt
      let pt2 :=
        match (objGet function "arguments").bind JsonVal.asStr with
        | some args => { pt1 with arguments := pt1.arguments ++ args }
        | none => pt1
      some pt2
  | _, _ => pending1

/-- Mirror of the per-line body of `stream_openai` (lines 234-302).  Returns
the events emitted for this line, the new pending slot, and whether the
function returned (`[DONE]`).  Order follows the source: the `[DONE]` check
comes before JSON parsing; then text content, then tool-call fragments, then
the `finish_reason` flush.  `parseJson` is the external `serde_json::from_str`
(`none` models its `Err` branch, skipped silently). -/
def processLine (parseJson : String → Option JsonVal)
    (execTool : String → String → Except String String)
    (pending : Option PendingToolCall) (line : String) :
    List Emitted × Option PendingToolCall × Bool :=
  match stripDataTag line with
  | none => ([], pending, false)
  | some data =>
      if data = "[DONE]" then
        let flushed := flushPendingTool execTool pending
        (flushed.1 ++ [.streamChunk { chunk := "", done := true }], none, true)
      else
        match parseJson data with
        | none => ([], pending, false)
        | some json =>
            let delta := ((json.getKey "choices").getIdx 0).getKey "delta"
            let textEvents :=
              match (delta.getKey "content").asStr with
              | some content =>
                  [Emitted.streamChunk { chunk := content, done := false }]
              | none => []
            let pending1 :=
              match (delta.getKey "tool_calls").asArr with
              | some toolCalls => toolCalls.foldl processToolCallFragment pending
              | none => pending
            match (((json.getKey "choices").getIdx 0).getKey
                "finish_reason").asStr with
            | some finishReason =>
                if finishReason = "tool_calls" then
                  let flushed := flushPendingTool execTool pending1
                  (textEvents ++ flushed.1, flushed.2, false)
                else (textEvents, pending1, false)
            | none => (textEvents, pending1, false)

/-- Process the lines of one network chunk in order, stopping early when a
line returned (`[DONE]`). -/
def processLines (parseJson : String → Option JsonVal)
    (execTool : String → String → Except String String) :
    Option PendingToolCall → List String →
    List Emitted × Option PendingToolCall × Bool
  | pending, [] => ([], pending, false)
  | pending, line :: rest =>
      let step := processLine parseJson execTool pending line
      if step.2.2 then step
      else
        let next := processLines parseJson execTool step.2.1 rest
        (step.1 ++ next.1, next.2)

/-- Split a character sequence at every `'\n'` (the newline itself removed);
always yields at least one (possibly empty) piece. -/
def splitOnNewline : List Char → List (List Char)
  | [] => [[]]
  | c :: rest =>
      let parts := splitOnNewline rest
      if c = '\n' then [] :: parts
      else
        match parts with
        | [] => [[c]]
        | p :: ps => (c :: p) :: ps

/-- Strip one trailing carriage return. -/
def stripCR (line : List Char) : List Char :=
  if line.getLast? = some '\r' then line.dropLast else line

/-- Post-process the pieces of `splitOnNewline` the way Rust's `str::lines()`
treats them: every piece but the last was newline-terminated, so it gets a
trailing `'\r'` stripped; the final piece (after the last newline) is dropped
when empty and otherwise kept verbatim. -/
def rustLinesAux : List (List Char) → List (List Char)
  | [] => []
  | [last] => if last = [] then [] else [last]
  | p :: rest => stripCR p :: rustLinesAux rest

/-- Mirror of Rust's `str::lines()` as used on each network chunk: split at
`'\n'` or `'\r\n'` line endings, with an optional final line ending. -/
def rustLines (s : String) : List String :=
  (rustLinesAux (splitOnNewline s.toList)).map String.mk

/-- Process the network chunks of the response body in arrival order
(`while let Some(chunk_result) = stream.next().await`), splitting each chunk
into lines independently, stopping early on `[DONE]`. -/
def processChunks (parseJson : String → Option JsonVal)
    (execTool : String → String → Except String String) :
    Option PendingToolCall → List String →
    List Emitted × Option PendingToolCall × Bool
  | pending, [] => ([], pending, false)
  | pending, chunk :: rest =>
      let step := processLines parseJson execTool pending (rustLines chunk)
      if step.2.2 then step
      else
        let next := processChunks parseJson execTool step.2.1 rest
        (step.1 ++ next.1, next.2)

/-- The streaming body of `AiManager::stream_openai` (lines 227-306) as seen
by the Output Sink: the event trace produced from the response-body chunks,
starting with no pending tool call.  When the provider closes the stream
without a `[DONE]` marker the function falls out of the loop and returns
`Ok(())` with no terminal event. -/
def stream_openai (parseJson : String → Option JsonVal)
    (execTool : String → String → Except String String)
    (chunks : List String) : List Emitted :=
  (processChunks parseJson execTool none chunks).1

/-! Provider routing (`ai_manager.rs`, `invoke_stream`, lines 152-181). -/

/-- Mirror of `keyring_store::AiProvider`. -/
inductive AiProvider where
  | openAI
  | anthropic
  | google
  | poro2_8B
  | finChatSummary
deriving DecidableEq, Repr

/-- Mirror of `AiProvider::requires_api_key`. -/
def AiProvider.requiresApiKey : AiProvider → Bool
  | .openAI | .anthropic | .google => true
  | .poro2_8B | .finChatSummary => false

/-- Mirror of the Rust `Debug` formatting of `AiProvider`, used by the
`UnsupportedProvider` arm. -/
def AiProvider.debugStr : AiProvider → String
  | .openAI => "OpenAI"
  | .anthropic => "Anthropic"
  | .google => "Google"
  | .poro2_8B => "Poro2_8B"
  | .finChatSummary => "FinChatSummary"

/-- Mirror of `enum AiError` (`ai_manager.rs` lines 20-36).  The taxonomy has
no `NoActiveProvider` variant; a missing provider selection is reported
through `NoApiKey`. -/
inductive AiError where
  | noApiKey (msg : String)
  | httpError (msg : String)
  | parseError (msg : String)
  | apiError (msg : String)
  | unsupportedProvider (msg : String)
  | localModelError (msg : String)
  | localInferenceError (msg : String)
deriving DecidableEq, Repr

/-- Mirror of `AiManager::invoke_stream`: read the active provider —
`None` fails immediately with `AiError::NoApiKey("No provider selected")` —
then route: a provider that needs no API key goes to the local engine;
otherwise the key is fetched (`Err` becomes `NoApiKey`) and the matching
per-provider stream runs; a keyed provider with no adapter arm would be
`UnsupportedProvider`.  The local engine and the three per-provider streams
are oracles returning their event trace and result. -/
def invoke_stream
    (getApiKey : AiProvider → Except String String)
    (runLocal : AiProvider → List Emitted × Except AiError Unit)
    (runRemote : AiProvider → String → List Emitted × Except AiError Unit)
    (activeProvider : Option AiProvider) :
    List Emitted × Except AiError Unit :=
  match activeProvider with
  | none => ([], .error (.noApiKey "No provider selected"))
  | some provider =>
      if !provider.requiresApiKey then runLocal provider
      else
        match getApiKey provider with
        | .error e => ([], .error (.noApiKey e))
        | .ok apiKey =>
            match provider with
            | .openAI | .anthropic | .google => runRemote provider apiKey
            | other =>
                ([], .error (.unsupportedProvider other.debugStr))

/-! Concrete fixtures used by counterexamples and witnesses: small model
oracles for the local engine, and concrete parse tables (the value
`serde_json::from_str` produces on exactly the listed payloads) for the
OpenAI-style adapter. -/

/-- A spec-words variant of the penalty rule, written from the claim
"multiply the score by the penalty if the score is positive, divide by the
penalty if the score is non-positive" — the opposite direction of the
source's branches; kept only to compare against `applyRepetitionPenalty`. -/
def claimedPenalty (recent : List Int) (cand : LlamaTokenData) :
    LlamaTokenData :=
  if recent.contains cand.id then
    if 0 < cand.logit then { cand with logit := cand.logit * penalty }
    else { cand with logit := cand.logit / penalty }
  else cand

/-- The sampling step as the claim words it: `claimedPenalty` followed by the
same sort-and-take-first. -/
def sampleGreedyClaimed (allTokens : List Int)
    (cands : List LlamaTokenData) : Option Int :=
  let recent := recentTokens allTokens
  let penalized := cands.map (claimedPenalty recent)
  (sortByLogitDesc penalized).head?.map LlamaTokenData.id

/-- A model oracle with a single candidate (token 0, logit 1) at every step,
no end-of-generation token, and every token decoding to `"x"`. -/
def constOracle : LocalModelOracle :=
  { ctxCandidates := fun _ => [⟨0, 1⟩]
    isEogToken := fun _ => false
    tokenToStr := fun _ => some "x" }

/-- A model oracle whose only token decodes to the stop marker
`"Kysymys:"`. -/
def stopOracle : LocalModelOracle :=
  { ctxCandidates := fun _ => [⟨0, 1⟩]
    isEogToken := fun _ => false
    tokenToStr := fun _ => some "Kysymys:" }

/-- A model oracle whose only token is an end-of-generation token. -/
def eogOracle : LocalModelOracle :=
  { ctxCandidates := fun _ => [⟨0, 1⟩]
    isEogToken := fun _ => true
    tokenToStr := fun _ => some "x" }

/-- The payload text of one OpenAI text-delta event carrying `"Hi"`. -/
def hiPayload : String :=
  "\x7b\"choices\":[\x7b\"delta\":\x7b\"content\":\"Hi\"\x7d\x7d]\x7d"

/-- Parse table for `hiPayload` (the tree serde produces on it). -/
def hiParse : String → Option JsonVal := fun s =>
  if s = hiPayload then
    some (.obj [("choices", .arr [.obj [("delta",
      .obj [("content", .str "Hi")])]])])
  else none

/-- A tool executor that always succeeds. -/
def okExec : String → String → Except String String := fun _ _ => .ok "ok"

/-- Payload of a tool-call fragment opening call `c9` with name `bogus`. -/
def bogusPayload1 : String :=
  "\x7b\"choices\":[\x7b\"delta\":\x7b\"tool_calls\":[\x7b\"id\":\"c9\",\"function\":\x7b\"name\":\"bogus\"\x7d\x7d]\x7d\x7d]\x7d"

/-- Payload of the matching `finish_reason: "tool_calls"` event. -/
def bogusPayload2 : String :=
  "\x7b\"choices\":[\x7b\"delta\":\x7b\x7d,\"finish_reason\":\"tool_calls\"\x7d]\x7d"

/-- Parse table for the two `bogus` payloads. -/
def bogusParse : String → Option JsonVal := fun s =>
  if s = bogusPayload1 then
    some (.obj [("choices", .arr [.obj [("delta", .obj [("tool_calls",
      .arr [.obj [("id", .str "c9"),
        ("function", .obj [("name", .str "bogus")])]])])]])])
  else if s = bogusPayload2 then
    some (.obj [("choices", .arr [.obj [("delta", .obj []),
      ("finish_reason", .str "tool_calls")]])])
  else none

/-- The repository's `execute_tool` with an always-succeeding collaborator
for the four known tools: any unknown name still fails with
`Unknown tool: ...`. -/
def repoExec : String → String → Except String String :=
  execute_tool fun _ _ => .ok "ok"

/-- A stream carrying the `bogus` tool call, its finish event, and the
terminal marker. -/
def bogusChunks : List String :=
  ["data: " ++ bogusPayload1, "data: " ++ bogusPayload2, "data: [DONE]"]

/-- First fragment of the spec's tool-call reconstruction example: the
opening fragment carrying only `id: "c1"`. -/
def toolPayload1 : String :=
  "\x7b\"choices\":[\x7b\"delta\":\x7b\"tool_calls\":[\x7b\"id\":\"c1\"\x7d]\x7d\x7d]\x7d"

/-- Second fragment: name delta `create_`. -/
def toolPayload2 : String :=
  "\x7b\"choices\":[\x7b\"delta\":\x7b\"tool_calls\":[\x7b\"function\":\x7b\"name\":\"create_\"\x7d\x7d]\x7d\x7d]\x7d"

/-- Third fragment: name delta `note` and argument delta `\x7b"content":`. -/
def toolPayload3 : String :=
  "\x7b\"choices\":[\x7b\"delta\":\x7b\"tool_calls\":[\x7b\"function\":\x7b\"name\":\"note\",\"arguments\":\"\x7b\\\"content\\\":\"\x7d\x7d]\x7d\x7d]\x7d"

/-- Fourth fragment: argument delta `"hi"\x7d`. -/
def toolPayload4 : String :=
  "\x7b\"choices\":[\x7b\"delta\":\x7b\"tool_calls\":[\x7b\"function\":\x7b\"arguments\":\"\\\"hi\\\"\x7d\"\x7d\x7d]\x7d\x7d]\x7d"

/-- Fifth event: `finish_reason: "tool_calls"`. -/
def toolPayload5 : String :=
  "\x7b\"choices\":[\x7b\"delta\":\x7b\x7d,\"finish_reason\":\"tool_calls\"\x7d]\x7d"

/-- Parse table for the five example payloads. -/
def toolParse : String → Option JsonVal := fun s =>
  if s = toolPayload1 then
    some (.obj [("choices", .arr [.obj [("delta", .obj [("tool_calls",
      .arr [.obj [("id", .str "c1")]])])]])])
  else if s = toolPayload2 then
    some (.obj [("choices", .arr [.obj [("delta", .obj [("tool_calls",
      .arr [.obj [("function", .obj [("name", .str "create_")])]])])]])])
  else if s = toolPayload3 then
    some (.obj [("choices", .arr [.obj [("delta", .obj [("tool_calls",
      .arr [.obj [("function", .obj [("name", .str "note"),
        ("arguments", .str "\x7b\"content\":")])]])])]])])
  else if s = toolPayload4 then
    some (.obj [("choices", .arr [.obj [("delta", .obj [("tool_calls",
      .arr [.obj [("function",
        .obj [("arguments", .str "\"hi\"\x7d")])]])])]])])
  else if s = toolPayload5 then
    some (.obj [("choices", .arr [.obj [("delta", .obj []),
      ("finish_reason", .str "tool_calls")]])])
  else none

/-- The spec's four tool-call fragments, the finish event, and the terminal
marker, one chunk per event line. -/
def toolChunks : List String :=
  ["data: " ++ toolPayload1, "data: " ++ toolPayload2,
   "data: " ++ toolPayload3, "data: " ++ toolPayload4,
   "data: " ++ toolPayload5, "data: [DONE]"]

/-! Helper lemmas about the sampler. -/

lemma applyRepetitionPenalty_id (recent : List Int) (c : LlamaTokenData) :
    (applyRepetitionPenalty recent c).id = c.id := by
  unfold applyRepetitionPenalty
  split
  · split <;> rfl
  · rfl

lemma sortByLogitDesc_head_max (l : List LlamaTokenData) (c : LlamaTokenData)
    (rest : List LlamaTokenData) (h : sortByLogitDesc l = c :: rest) :
    c ∈ l ∧ ∀ b ∈ l, b.logit ≤ c.logit := by
  have hperm := List.perm_insertionSort logitGE l
  have hsorted := List.sorted_insertionSort logitGE l
  rw [sortByLogitDesc] at h
  rw [h] at hperm hsorted
  refine ⟨hperm.mem_iff.mp (List.mem_cons_self c rest), ?_⟩
  intro b hb
  have hb2 : b ∈ c :: rest := hperm.mem_iff.mpr hb
  rcases List.mem_cons.mp hb2 with h1 | h1
  · subst h1; exact le_refl _
  · exact (List.pairwise_cons.mp hsorted).1 b h1

lemma sampleGreedy_single (allT : List Int) (c : LlamaTokenData) :
    sampleGreedy allT [c] = some c.id := by
  simp [sampleGreedy, sortByLogitDesc, List.insertionSort, List.orderedInsert,
    applyRepetitionPenalty_id]

/-! Helper lemmas about the decode loop. -/

lemma containsSub_replicate_x (hd : Char) (tl : List Char) (hc : hd ≠ 'x')
    (m : Nat) : containsSub (hd :: tl) (List.replicate m 'x') = false := by
  induction m with
  | zero => simp [containsSub]
  | succ k ih =>
      rw [List.replicate_succ]
      simp only [containsSub, List.isPrefixOf, Bool.or_eq_false_iff]
      refine ⟨?_, ih⟩
      simp [hc]

lemma strContains_replicate_x (needle : String) (hd : Char) (tl : List Char)
    (hne : needle.toList = hd :: tl) (hc : hd ≠ 'x') (m : Nat) :
    strContains (String.mk (List.replicate m 'x')) needle = false := by
  show containsSub needle.toList (List.replicate m 'x') = false
  rw [hne]
  exact containsSub_replicate_x hd tl hc m

lemma containsStopSequence_replicate_x (m : Nat) :
    containsStopSequence (String.mk (List.replicate m 'x')) = false := by
  unfold containsStopSequence stop_sequences
  simp only [List.any_cons, List.any_nil, Bool.or_false, Bool.or_eq_false_iff]
  exact ⟨strContains_replicate_x _ 'K' _ rfl (by decide) m,
    strContains_replicate_x _ 'K' _ rfl (by decide) m,
    strContains_replicate_x _ 'E' _ rfl (by decide) m,
    strContains_replicate_x _ 'U' _ rfl (by decide) m,
    strContains_replicate_x _ 'I' _ rfl (by decide) m,
    strContains_replicate_x _ 'V' _ rfl (by decide) m,
    strContains_replicate_x _ '<' _ rfl (by decide) m,
    strContains_replicate_x _ '<' _ rfl (by decide) m,
    strContains_replicate_x _ '\n' _ rfl (by decide) m⟩

lemma genLoop_succ_eog (M : LocalModelOracle) (fuel : Nat) (allT : List Int)
    (resp : String) (t : Int)
    (hs : sampleGreedy allT (M.ctxCandidates allT) = some t)
    (he : M.isEogToken t = true) :
    genLoop M (fuel + 1) allT resp =
      { fragments := [], allTokens := allT ++ [t], fullResponse := resp,
        reason := .eogToken } := by
  rw [genLoop, hs]
  simp [he]

lemma genLoop_succ_stop (M : LocalModelOracle) (fuel : Nat) (allT : List Int)
    (resp : String) (t : Int) (s : String)
    (hs : sampleGreedy allT (M.ctxCandidates allT) = some t)
    (he : M.isEogToken t = false)
    (ht : M.tokenToStr t = some s)
    (hstop : containsStopSequence (resp ++ s) = true) :
    genLoop M (fuel + 1) allT resp =
      { fragments := [], allTokens := allT ++ [t], fullResponse := resp ++ s,
        reason := .stopSequence } := by
  rw [genLoop, hs]
  simp [he, ht, hstop]

lemma genLoop_succ_emit (M : LocalModelOracle) (fuel : Nat) (allT : List Int)
    (resp : String) (t : Int) (s : String)
    (hs : sampleGreedy allT (M.ctxCandidates allT) = some t)
    (he : M.isEogToken t = false)
    (ht : M.tokenToStr t = some s)
    (hstop : containsStopSequence (resp ++ s) = false)
    (h1 : s ≠ "") (h2 : ¬(s = "<unk>" ∨ s = " <unk>")) :
    genLoop M (fuel + 1) allT resp =
      { genLoop M fuel (allT ++ [t]) (resp ++ s) with
        fragments := s :: (genLoop M fuel (allT ++ [t]) (resp ++ s)).fragments } := by
  rw [genLoop, hs]
  simp [he, ht, hstop, h1, h2]

lemma genLoop_succ_undecodable (M : LocalModelOracle) (fuel : Nat)
    (allT : List Int) (resp : String) (t : Int)
    (hs : sampleGreedy allT (M.ctxCandidates allT) = some t)
    (he : M.isEogToken t = false)
    (ht : M.tokenToStr t = none) :
    genLoop M (fuel + 1) allT resp = genLoop M fuel (allT ++ [t]) resp := by
  rw [genLoop, hs]
  simp [he, ht]

lemma genLoop_succ_skip (M : LocalModelOracle) (fuel : Nat)
    (allT : List Int) (resp : String) (t : Int) (s : String)
    (hs : sampleGreedy allT (M.ctxCandidates allT) = some t)
    (he : M.isEogToken t = false)
    (ht : M.tokenToStr t = some s)
    (hstop : containsStopSequence (resp ++ s) = false)
    (hskip : s = "" ∨ s = "<unk>" ∨ s = " <unk>") :
    genLoop M (fuel + 1) allT resp = genLoop M fuel (allT ++ [t]) (resp ++ s) := by
  rcases hskip with h | h | h
  · subst h
    have hstop2 : containsStopSequence resp = false := by simpa using hstop
    rw [genLoop, hs]
    simp [he, ht, hstop2]
  · subst h
    rw [genLoop, hs]
    simp [he, ht, hstop]
  · subst h
    rw [genLoop, hs]
    simp [he, ht, hstop]

lemma genLoop_fragments_from_tokens (M : LocalModelOracle) :
    ∀ (fuel : Nat) (allT : List Int) (resp : String),
      ∀ frag ∈ (genLoop M fuel allT resp).fragments,
        ∃ t, M.tokenToStr t = some frag ∧ M.isEogToken t = false := by
  intro fuel
  induction fuel with
  | zero => intro allT resp frag hf; simp [genLoop] at hf
  | succ n ih =>
      intro allT resp frag hf
      cases hs : sampleGreedy allT (M.ctxCandidates allT) with
      | none => rw [genLoop, hs] at hf; simp at hf
      | some t =>
          cases he : M.isEogToken t with
          | true =>
              rw [genLoop_succ_eog M n allT resp t hs he] at hf
              simp at hf
          | false =>
              cases ht : M.tokenToStr t with
              | none =>
                  rw [genLoop_succ_undecodable M n allT resp t hs he ht] at hf
                  exact ih _ _ frag hf
              | some s =>
                  by_cases hstop : containsStopSequence (resp ++ s) = true
                  · rw [genLoop_succ_stop M n allT resp t s hs he ht hstop] at hf
                    simp at hf
                  · have hstop2 : containsStopSequence (resp ++ s) = false := by
                      simpa using hstop
                    by_cases hskip : s = "" ∨ s = "<unk>" ∨ s = " <unk>"
                    · rw [genLoop_succ_skip M n allT resp t s hs he ht hstop2
                        hskip] at hf
                      exact ih _ _ frag hf
                    · push_neg at hskip
                      obtain ⟨h1, h23⟩ := hskip
                      have h2 : ¬(s = "<unk>" ∨ s = " <unk>") := by
                        push_neg
                        exact h23
                      rw [genLoop_succ_emit M n allT resp t s hs he ht hstop2
                        h1 h2] at hf
                      simp only [List.mem_cons] at hf
                      rcases hf with h | h
                      · subst h; exact ⟨t, ht, he⟩
                      · exact ih _ _ frag h

lemma countDoneChunks_run_local (M : LocalModelOracle) (promptTokens : List Int)
    (maxT : Nat) :
    countDoneChunks (run_local_inference M promptTokens maxT) = 1 := by
  unfold run_local_inference countDoneChunks
  simp [List.filter_append, List.filter_map, Function.comp]

lemma string_mk_append_x (l : List Char) :
    String.mk l ++ "x" = String.mk (l ++ ['x']) := rfl

lemma genLoop_constOracle : ∀ (f : Nat) (allT : List Int) (k : Nat),
    genLoop constOracle f allT (String.mk (List.replicate k 'x')) =
      { fragments := List.replicate f "x",
        allTokens := allT ++ List.replicate f 0,
        fullResponse := String.mk (List.replicate (k + f) 'x'),
        reason := .maxTokensReached } := by
  intro f
  induction f with
  | zero => intro allT k; simp [genLoop]
  | succ n ih =>
      intro allT k
      have hstep := genLoop_succ_emit constOracle n allT
        (String.mk (List.replicate k 'x')) 0 "x"
        (sampleGreedy_single allT ⟨0, 1⟩) rfl rfl
        (by rw [string_mk_append_x, ← List.replicate_succ']
            exact containsStopSequence_replicate_x (k + 1))
        (by decide) (by decide)
      rw [hstep, string_mk_append_x, ← List.replicate_succ', ih]
      have hresp : k + 1 + n = k + (n + 1) := by omega
      simp [hresp, List.replicate_succ, List.append_assoc]

lemma run_local_constOracle (promptTokens : List Int) (maxT : Nat) :
    run_local_inference constOracle promptTokens maxT =
      (List.replicate (maxT - promptTokens.length) "x").map
          (fun t => { chunk := t, done := false }) ++
        [{ chunk := "", done := true }] := by
  unfold run_local_inference
  rw [show ("" : String) = String.mk (List.replicate 0 'x') from rfl,
      genLoop_constOracle]

/-! Helper lemmas about the OpenAI-style adapter. -/

lemma countDoneEvents_append (a b : List Emitted) :
    countDoneEvents (a ++ b) = countDoneEvents a + countDoneEvents b := by
  unfold countDoneEvents
  simp [List.filter_append]

lemma countDoneEvents_flush
    (execTool : String → String → Except String String)
    (pending : Option PendingToolCall) :
    countDoneEvents (flushPendingTool execTool pending).1 = 0 := by
  cases pending <;> rfl

lemma countDoneEvents_nil : countDoneEvents [] = 0 := rfl

lemma countDoneEvents_text (content : String) :
    countDoneEvents [Emitted.streamChunk { chunk := content, done := false }] = 0 :=
  rfl

lemma countDoneEvents_done :
    countDoneEvents [Emitted.streamChunk { chunk := "", done := true }] = 1 :=
  rfl

lemma countDoneEvents_cons_text (content : String) (rest : List Emitted) :
    countDoneEvents
        (Emitted.streamChunk { chunk := content, done := false } :: rest) =
      countDoneEvents rest := by
  unfold countDoneEvents
  simp

lemma processLine_spec (parse : String → Option JsonVal)
    (exec : String → String → Except String String)
    (pending : Option PendingToolCall) (line : String) :
    (processLine parse exec pending line).2.2 = isDoneLine line ∧
    countDoneEvents (processLine parse exec pending line).1 =
      (if isDoneLine line then 1 else 0) := by
  unfold processLine isDoneLine
  cases h : stripDataTag line with
  | none => exact ⟨by simp, by simp [countDoneEvents_nil]⟩
  | some data =>
      by_cases hd : data = "[DONE]"
      · subst hd
        refine ⟨by simp, ?_⟩
        simp [countDoneEvents_append, countDoneEvents_flush,
          countDoneEvents_done]
      · simp only [hd, if_false]
        cases hp : parse data with
        | none => exact ⟨by simp [hd], by simp [hd, countDoneEvents_nil]⟩
        | some json =>
            cases hf : (((json.getKey "choices").getIdx 0).getKey
                "finish_reason").asStr with
            | none =>
                cases hc : ((((json.getKey "choices").getIdx 0).getKey
                    "delta").getKey "content").asStr <;>
                  exact ⟨by simp [hd, hf, hc], by
                    simp [hd, hf, hc, countDoneEvents_nil,
                      countDoneEvents_text]⟩
            | some fr =>
                by_cases hfr : fr = "tool_calls" <;>
                  cases hc : ((((json.getKey "choices").getIdx 0).getKey
                      "delta").getKey "content").asStr <;>
                    exact ⟨by simp [hd, hf, hc, hfr], by
                      simp [hd, hf, hc, hfr, countDoneEvents_append,
                        countDoneEvents_flush, countDoneEvents_nil,
                        countDoneEvents_text, countDoneEvents_cons_text]⟩

lemma processLines_spec (parse : String → Option JsonVal)
    (exec : String → String → Except String String) :
    ∀ (lines : List String) (pending : Option PendingToolCall),
      (processLines parse exec pending lines).2.2 = lines.any isDoneLine ∧
      countDoneEvents (processLines parse exec pending lines).1 =
        (if lines.any isDoneLine then 1 else 0) := by
  intro lines
  induction lines with
  | nil => intro pending; exact ⟨rfl, rfl⟩
  | cons line rest ih =>
      intro pending
      obtain ⟨hstop, hcount⟩ := processLine_spec parse exec pending line
      by_cases hdl : isDoneLine line
      · refine ⟨?_, ?_⟩ <;>
          simp [processLines, hstop, hdl, hcount]
      · obtain ⟨ihstop, ihcount⟩ :=
          ih (processLine parse exec pending line).2.1
        refine ⟨?_, ?_⟩ <;>
          simp [processLines, hstop, hdl, hcount, ihstop, ihcount,
            countDoneEvents_append]

lemma processChunks_spec (parse : String → Option JsonVal)
    (exec : String → String → Except String String) :
    ∀ (chunks : List String) (pending : Option PendingToolCall),
      (processChunks parse exec pending chunks).2.2 =
        chunks.any (fun ch => (rustLines ch).any isDoneLine) ∧
      countDoneEvents (processChunks parse exec pending chunks).1 =
        (if chunks.any (fun ch => (rustLines ch).any isDoneLine) then 1
         else 0) := by
  intro chunks
  induction chunks with
  | nil => intro pending; exact ⟨rfl, rfl⟩
  | cons chunk rest ih =>
      intro pending
      obtain ⟨hstop, hcount⟩ :=
        processLines_spec parse exec (rustLines chunk) pending
      by_cases hdl : (rustLines chunk).any isDoneLine
      · refine ⟨?_, ?_⟩ <;>
          simp [processChunks, hstop, hdl, hcount]
      · obtain ⟨ihstop, ihcount⟩ :=
          ih (processLines parse exec pending (rustLines chunk)).2.1
        refine ⟨?_, ?_⟩ <;>
          simp [processChunks, hstop, hdl, hcount, ihstop, ihcount,
            countDoneEvents_append]

lemma flushPendingTool_exec_indep
    (exec1 exec2 : String → String → Except String String)
    (p : Option PendingToolCall) :
    flushPendingTool exec1 p = flushPendingTool exec2 p := by
  cases p <;> rfl

lemma processLine_exec_indep (parse : String → Option JsonVal)
    (exec1 exec2 : String → String → Except String String)
    (p : Option PendingToolCall) (line : String) :
    processLine parse exec1 p line = processLine parse exec2 p line := by
  unfold processLine
  simp only [flushPendingTool_exec_indep exec1 exec2]

lemma processLines_exec_indep (parse : String → Option JsonVal)
    (exec1 exec2 : String → String → Except String String) :
    ∀ (lines : List String) (p : Option PendingToolCall),
      processLines parse exec1 p lines = processLines parse exec2 p lines := by
  intro lines
  induction lines with
  | nil => intro p; rfl
  | cons line rest ih =>
      intro p
      unfold processLines
      rw [processLine_exec_indep parse exec1 exec2 p line]
      simp only [ih]

lemma processChunks_exec_indep (parse : String → Option JsonVal)
    (exec1 exec2 : String → String → Except String String) :
    ∀ (chunks : List String) (p : Option PendingToolCall),
      processChunks parse exec1 p chunks =
        processChunks parse exec2 p chunks := by
  intro chunks
  induction chunks with
  | nil => intro p; rfl
  | cons chunk rest ih =>
      intro p
      unfold processChunks
      rw [processLines_exec_indep parse exec1 exec2 (rustLines chunk) p]
      simp only [ih]

/-! The claims. -/

/-- Claim C1, counterexample: the claim says a repeated candidate with a
positive score is multiplied by 1.2; the code divides it by 1.2.  At score 2
the code's penalized score is 5/3, not 2 times 1.2; and on the candidate set
(id 0, logit 2), (id 1, logit 19/10) with recent window [0], the code's
procedure selects token 1 while the claim's procedure selects token 0. -/
theorem sampler_penalty_counterexample :
    applyRepetitionPenalty [0] ⟨0, 2⟩ = ⟨0, 5/3⟩ ∧
    ((5 : ℚ)/3 ≠ 2 * penalty) ∧
    sampleGreedy [0] [⟨0, 2⟩, ⟨1, 19/10⟩] = some 1 ∧
    sampleGreedyClaimed [0] [⟨0, 2⟩, ⟨1, 19/10⟩] = some 0 ∧
    (1 : Int) ≠ 0 := by
  refine ⟨?_, by norm_num [penalty], ?_, ?_, by norm_num⟩
  · norm_num [applyRepetitionPenalty, penalty, List.contains]
  · norm_num [sampleGreedy, recentTokens, last_n, applyRepetitionPenalty,
      penalty, sortByLogitDesc, List.insertionSort, List.orderedInsert,
      logitGE, List.contains]
  · norm_num [sampleGreedyClaimed, recentTokens, last_n, claimedPenalty,
      penalty, sortByLogitDesc, List.insertionSort, List.orderedInsert,
      logitGE, List.contains]

/-- Claim C1 (amended): in the per-step sampling, a candidate whose id occurs
in the last-64 window has its score divided by 1.2 when positive and
multiplied by 1.2 when non-positive; all candidates are re-ranked by
penalized score descending and the selected token is the id of a candidate
whose penalized score is maximal over the whole candidate set (pure greedy
decoding). -/
theorem sampler_penalty_and_greedy
    (recent : List Int) (c : LlamaTokenData)
    (hmem : recent.contains c.id = true)
    (allT : List Int) (cands : List LlamaTokenData) (t : Int)
    (hsel : sampleGreedy allT cands = some t) :
    applyRepetitionPenalty recent c =
      (if 0 < c.logit then { c with logit := c.logit / penalty }
       else { c with logit := c.logit * penalty }) ∧
    ∃ cbest ∈ cands,
      (applyRepetitionPenalty (recentTokens allT) cbest).id = t ∧
      ∀ b ∈ cands,
        (applyRepetitionPenalty (recentTokens allT) b).logit ≤
          (applyRepetitionPenalty (recentTokens allT) cbest).logit := by
  constructor
  · unfold applyRepetitionPenalty
    rw [if_pos hmem]
    by_cases h : c.logit ≤ 0
    · rw [if_pos h, if_neg (by exact not_lt.mpr h)]
    · rw [if_neg h, if_pos (by exact lt_of_not_le h)]
  · unfold sampleGreedy at hsel
    simp only [Option.map_eq_some'] at hsel
    obtain ⟨hd, hhd, hid⟩ := hsel
    match hsort : sortByLogitDesc
        (cands.map (applyRepetitionPenalty (recentTokens allT))) with
    | [] => rw [hsort] at hhd; simp at hhd
    | x :: xs =>
        rw [hsort] at hhd
        simp only [List.head?_cons, Option.some_inj] at hhd
        subst hhd
        obtain ⟨hmem2, hmax⟩ := sortByLogitDesc_head_max _ _ _ hsort
        obtain ⟨cbest, hcb, hcbeq⟩ := List.mem_map.mp hmem2
        refine ⟨cbest, hcb, ?_, ?_⟩
        · rw [hcbeq]; exact hid
        · intro b hb
          rw [hcbeq]
          exact hmax _ (List.mem_map_of_mem _ hb)

/-- Witness for C1's amended theorem at window [0], candidate (id 0, logit 2)
and candidate set [(id 5, logit 0)]. -/
theorem sampler_penalty_and_greedy_witness :
    ([0] : List Int).contains (⟨0, 2⟩ : LlamaTokenData).id = true ∧
    sampleGreedy [0] [⟨5, 0⟩] = some 5 ∧
    (applyRepetitionPenalty [0] ⟨0, 2⟩ =
      (if 0 < (⟨0, 2⟩ : LlamaTokenData).logit then
        { (⟨0, 2⟩ : LlamaTokenData) with
            logit := (⟨0, 2⟩ : LlamaTokenData).logit / penalty }
       else
        { (⟨0, 2⟩ : LlamaTokenData) with
            logit := (⟨0, 2⟩ : LlamaTokenData).logit * penalty }) ∧
    ∃ cbest ∈ [(⟨5, 0⟩ : LlamaTokenData)],
      (applyRepetitionPenalty (recentTokens [0]) cbest).id = 5 ∧
      ∀ b ∈ [(⟨5, 0⟩ : LlamaTokenData)],
        (applyRepetitionPenalty (recentTokens [0]) b).logit ≤
          (applyRepetitionPenalty (recentTokens [0]) cbest).logit) :=
  ⟨by decide, by decide,
   sampler_penalty_and_greedy [0] ⟨0, 2⟩ (by decide) [0] [⟨5, 0⟩] 5
     (by decide)⟩

/-- Claim C2, counterexample: a provider stream that closes without its
`[DONE]` marker produces zero terminal events, not exactly one — the
OpenAI-style loop falls through and returns without emitting a terminal
chunk. -/
theorem terminal_event_counterexample :
    stream_openai hiParse okExec ["data: " ++ hiPayload] =
      [.streamChunk { chunk := "Hi", done := false }] ∧
    countDoneEvents (stream_openai hiParse okExec ["data: " ++ hiPayload]) = 0 ∧
    (0 : Nat) ≠ 1 := by
  refine ⟨by decide, by decide, by decide⟩

/-- Claim C2 (amended): the OpenAI-style dispatch delivers exactly one
terminal event when some line of the stream carries the `[DONE]` marker and
zero terminal events when the provider closes the stream without it; the
local engine's successful decode loop always delivers exactly one. -/
theorem one_terminal_event_iff_done_marker :
    (∀ (parse : String → Option JsonVal)
        (exec : String → String → Except String String)
        (chunks : List String),
      countDoneEvents (stream_openai parse exec chunks) =
        (if chunks.any (fun ch => (rustLines ch).any isDoneLine) then 1
         else 0)) ∧
    (∀ (M : LocalModelOracle) (promptTokens : List Int) (maxT : Nat),
      countDoneChunks (run_local_inference M promptTokens maxT) = 1) := by
  refine ⟨?_, countDoneChunks_run_local⟩
  intro parse exec chunks
  exact (processChunks_spec parse exec chunks none).2

/-- Claim C3, counterexample: with a maximum of 3 and a 2-token prompt, a
session whose tokens are never end-of-generation or stop-sequence tokens
emits exactly 1 fragment, not 3 — the cap bounds prompt plus generated
tokens, so the fragment count is not independent of the prompt length. -/
theorem token_budget_counterexample :
    run_local_inference constOracle [0, 0] 3 =
      [{ chunk := "x", done := false }, { chunk := "", done := true }] ∧
    countFragmentChunks (run_local_inference constOracle [0, 0] 3) = 1 ∧
    (1 : Nat) ≠ 3 := by
  have hrun := run_local_constOracle [0, 0] 3
  refine ⟨by rw [hrun]; rfl, by rw [hrun]; rfl, by decide⟩

/-- Claim C3 (amended): the token budget bounds the total token count
(prompt plus generated): a session whose tokens are never end-of-generation
or stop-sequence tokens stops after exactly `max - promptLength` emitted
fragments — 3 fragments for a maximum of 3 only when the prompt is empty —
and still emits the terminal event exactly once. -/
theorem token_budget_is_total_cap (promptTokens : List Int) (maxT : Nat) :
    countFragmentChunks (run_local_inference constOracle promptTokens maxT) =
      maxT - promptTokens.length ∧
    countDoneChunks (run_local_inference constOracle promptTokens maxT) = 1 := by
  rw [run_local_constOracle]
  constructor
  · unfold countFragmentChunks
    simp [List.filter_append, List.filter_map, Function.comp]
  · unfold countDoneChunks
    simp [List.filter_append, List.filter_map, Function.comp]

/-- Claim C4, counterexample: with no provider selected the router fails with
`NoApiKey("No provider selected")` — the error enum of the code has no
separate `NoActiveProvider` variant, so the failure is not a distinct member
of the taxonomy. -/
theorem no_active_provider_counterexample :
    invoke_stream (fun _ => .ok "sk-test") (fun _ => ([], .ok ()))
        (fun _ _ => ([], .ok ())) none =
      ([], .error (.noApiKey "No provider selected")) := rfl

/-- Claim C4 (amended): when no provider is selected, invoking the router
fails with the `NoApiKey` variant carrying the message
`No provider selected`, and the invocation performs no further work: the
emitted trace is empty and the result is independent of every collaborator
oracle. -/
theorem no_provider_fails_with_noApiKey
    (getApiKey : AiProvider → Except String String)
    (runLocal : AiProvider → List Emitted × Except AiError Unit)
    (runRemote : AiProvider → String → List Emitted × Except AiError Unit) :
    invoke_stream getApiKey runLocal runRemote none =
      ([], .error (.noApiKey "No provider selected")) := rfl

/-- Claim C5, counterexample: a completed tool call whose execution fails
(here the unknown tool name `bogus`, which the repository's `execute_tool`
rejects with `Unknown tool: bogus`) still fires the `refresh-required`
notification — the notification is not conditional on a successful
mutation. -/
theorem refresh_fired_despite_failed_tool :
    stream_openai bogusParse repoExec bogusChunks =
      [.toolExec "bogus" "", .refreshRequired,
       .streamChunk { chunk := "", done := true }] ∧
    repoExec "bogus" "" = .error "Unknown tool: bogus" ∧
    Emitted.refreshRequired ∈ stream_openai bogusParse repoExec bogusChunks :=
  ⟨by decide, rfl, by decide⟩

/-- Claim C5 (amended): the `refresh-required` notification fires after every
flushed (completed) tool call, whether the execution succeeded or failed —
the emitted trace does not depend on the tool executor's result at all, and
every flush of a pending call emits the execution followed by the
notification. -/
theorem refresh_independent_of_tool_result :
    (∀ (parse : String → Option JsonVal)
        (exec1 exec2 : String → String → Except String String)
        (chunks : List String),
      stream_openai parse exec1 chunks = stream_openai parse exec2 chunks) ∧
    (∀ (exec : String → String → Except String String)
        (tool : PendingToolCall),
      flushPendingTool exec (some tool) =
        ([.toolExec tool.name tool.arguments, .refreshRequired], none)) := by
  refine ⟨?_, fun _ _ => rfl⟩
  intro parse exec1 exec2 chunks
  unfold stream_openai
  rw [processChunks_exec_indep parse exec1 exec2 chunks none]

/-- Claim C6: a tool-call fragment carrying an id begins a fresh
`PendingToolCall` with empty buffers (replacing any pending one); name and
argument deltas are appended onto the pending buffers; and the spec's
four-fragment example followed by `finish_reason: "tool_calls"` assembles
and executes `create_note` with arguments `\x7b"content":"hi"\x7d`. -/
theorem tool_call_assembly :
    (∀ (pending : Option PendingToolCall) (i : String),
      processToolCallFragment pending (JsonVal.obj [("id", JsonVal.str i)]) =
        some { id := i, name := "", arguments := "" }) ∧
    (∀ (pt : PendingToolCall) (n a : String),
      processToolCallFragment (some pt)
          (JsonVal.obj [("function", JsonVal.obj
            [("name", JsonVal.str n), ("arguments", JsonVal.str a)])]) =
        some { id := pt.id, name := pt.name ++ n,
               arguments := pt.arguments ++ a }) ∧
    stream_openai toolParse okExec toolChunks =
      [.toolExec "create_note" "\x7b\"content\":\"hi\"\x7d", .refreshRequired,
       .streamChunk { chunk := "", done := true }] := by
  refine ⟨fun pending i => rfl, fun pt n a => rfl, by decide⟩

/-- Claim C7: a `data: ` line whose payload is the literal `[DONE]` is
recognized as stream end before any JSON parsing is attempted — the result
is the same for every parse oracle — and this stream end first flushes any
still-pending tool call (execution then notification) and only then emits
the terminal event. -/
theorem done_marker_before_parse
    (parseJson : String → Option JsonVal)
    (execTool : String → String → Except String String)
    (pending : Option PendingToolCall) :
    processLine parseJson execTool pending "data: [DONE]" =
      ((flushPendingTool execTool pending).1 ++
        [.streamChunk { chunk := "", done := true }], none, true) ∧
    (∀ tool : PendingToolCall,
      flushPendingTool execTool (some tool) =
        ([.toolExec tool.name tool.arguments, .refreshRequired], none)) :=
  ⟨rfl, fun _ => rfl⟩

/-- Claim C8: whenever appending the current token's decoded text makes the
accumulated text contain a configured stop marker, the decode loop halts at
that iteration with no fragment emitted from it on — and every local run
still emits exactly one terminal event. -/
theorem stop_sequence_halts_generation :
    (∀ (M : LocalModelOracle) (fuel : Nat) (allT : List Int) (resp : String)
        (t : Int) (s : String),
      sampleGreedy allT (M.ctxCandidates allT) = some t →
      M.isEogToken t = false →
      M.tokenToStr t = some s →
      containsStopSequence (resp ++ s) = true →
      genLoop M (fuel + 1) allT resp =
        { fragments := [], allTokens := allT ++ [t],
          fullResponse := resp ++ s, reason := .stopSequence }) ∧
    (∀ (M : LocalModelOracle) (promptTokens : List Int) (maxT : Nat),
      countDoneChunks (run_local_inference M promptTokens maxT) = 1) :=
  ⟨genLoop_succ_stop, countDoneChunks_run_local⟩

/-- Witness for C8 on the oracle whose token decodes to `Kysymys:`. -/
theorem stop_sequence_halts_generation_witness :
    sampleGreedy [] (stopOracle.ctxCandidates []) = some 0 ∧
    stopOracle.isEogToken 0 = false ∧
    stopOracle.tokenToStr 0 = some "Kysymys:" ∧
    containsStopSequence ("" ++ "Kysymys:") = true ∧
    genLoop stopOracle 5 [] "" =
      { fragments := [], allTokens := [0], fullResponse := "" ++ "Kysymys:",
        reason := .stopSequence } ∧
    countDoneChunks (run_local_inference stopOracle [] 5) = 1 :=
  ⟨by decide, rfl, rfl, by decide,
    stop_sequence_halts_generation.1 stopOracle 4 [] "" 0 "Kysymys:"
      (by decide) rfl rfl (by decide),
    stop_sequence_halts_generation.2 stopOracle [] 5⟩

/-- Claim C9: the penalty-then-rank sampling procedure is deterministic — two
runs on identical candidate sets and identical recent-token windows select
the identical token id (the procedure is a pure function of its inputs; the
code draws no randomness). -/
theorem sampler_two_runs_identical (allT1 allT2 : List Int)
    (cands1 cands2 : List LlamaTokenData)
    (h1 : allT1 = allT2) (h2 : cands1 = cands2) :
    sampleGreedy allT1 cands1 = sampleGreedy allT2 cands2 := by
  rw [h1, h2]

/-- Witness for C9 at a concrete candidate set. -/
theorem sampler_two_runs_identical_witness :
    [0] = ([0] : List Int) ∧
    sampleGreedy [0] [⟨0, 1⟩] = sampleGreedy [0] [⟨0, 1⟩] :=
  ⟨rfl, sampler_two_runs_identical [0] [0] [⟨0, 1⟩] [⟨0, 1⟩] rfl rfl⟩

/-- Claim C10: the halting token's text never reaches the Output Sink —
every emitted fragment is the decoding of a non-end-of-generation token; an
end-of-generation token ends the loop with no fragment (its text is never
even decoded); and the token whose arrival first makes the accumulated text
contain a stop marker likewise contributes no fragment, because both checks
precede the emission step of the iteration. -/
theorem halting_token_text_withheld :
    (∀ (M : LocalModelOracle) (fuel : Nat) (allT : List Int) (resp : String),
      ∀ frag ∈ (genLoop M fuel allT resp).fragments,
        ∃ t, M.tokenToStr t = some frag ∧ M.isEogToken t = false) ∧
    (∀ (M : LocalModelOracle) (fuel : Nat) (allT : List Int) (resp : String)
        (t : Int),
      sampleGreedy allT (M.ctxCandidates allT) = some t →
      M.isEogToken t = true →
      genLoop M (fuel + 1) allT resp =
        { fragments := [], allTokens := allT ++ [t], fullResponse := resp,
          reason := .eogToken }) ∧
    (∀ (M : LocalModelOracle) (fuel : Nat) (allT : List Int) (resp : String)
        (t : Int) (s : String),
      sampleGreedy allT (M.ctxCandidates allT) = some t →
      M.isEogToken t = false →
      M.tokenToStr t = some s →
      containsStopSequence (resp ++ s) = true →
      (genLoop M (fuel + 1) allT resp).fragments = []) := by
  refine ⟨genLoop_fragments_from_tokens, genLoop_succ_eog, ?_⟩
  intro M fuel allT resp t s hs he ht hstop
  rw [genLoop_succ_stop M fuel allT resp t s hs he ht hstop]

/-- Witness for C10 on the constant, end-of-generation and stop oracles. -/
theorem halting_token_text_withheld_witness :
    ("x" ∈ (genLoop constOracle 1 [] "").fragments ∧
      ∃ t, constOracle.tokenToStr t = some "x" ∧
        constOracle.isEogToken t = false) ∧
    (sampleGreedy [] (eogOracle.ctxCandidates []) = some 0 ∧
      eogOracle.isEogToken 0 = true ∧
      genLoop eogOracle 3 [] "" =
        { fragments := [], allTokens := [0], fullResponse := "",
          reason := .eogToken }) ∧
    (stopOracle.tokenToStr 0 = some "Kysymys:" ∧
      (genLoop stopOracle 3 [] "").fragments = []) :=
  ⟨⟨by decide,
    halting_token_text_withheld.1 constOracle 1 [] "" "x" (by decide)⟩,
   ⟨by decide, rfl,
    halting_token_text_withheld.2.1 eogOracle 2 [] "" 0 (by decide) rfl⟩,
   ⟨rfl,
    halting_token_text_withheld.2.2 stopOracle 2 [] "" 0 "Kysymys:"
      (by decide) rfl rfl (by decide)⟩⟩
